import Mathlib

/-!
Verification development for the detector module of the abTEM repository
(`abtem/detect.py`).  The Python source is embedded shallowly:

* machine floats are modelled as exact real numbers (`ℝ`);
* numpy arrays over the reciprocal-space grid are modelled as Lean
  functions from (flat, row-major) cell indices, or as `List`s;
* fallible code paths (`raise RuntimeError(...)`) are modelled with
  `Except String`;
* code of the repository that is not part of `abtem/detect.py`
  (`abtem.utils.spatial_frequencies`, the `Cache`/`Event` machinery of
  `abtem.base_classes`, and the backend device functions of
  `abtem.device`) is modelled from the specification; each such
  definition carries a doc comment starting with `Modelled from the
  spec:`.

Python-`int` truncation of a nonnegative float equals `Int.floor`; the
only such cast in `detect.py` (`radial_bins[valid] = ...`) is applied to
values that are nonnegative on the valid mask whenever `outer > inner`,
so it is embedded as `Int.floor` there.  When `outer == inner` the
radial expression is `0.0 / 0.0 = NaN` for the cells that remain valid
(`alpha == inner`), and numpy's cast of NaN (or ±inf) into an `int64`
array is undefined behaviour that yields `INT64_MIN` on x86-64; the
embedding models this junk value explicitly (see `radialBin`) instead
of using Lean's total division, whose `x / 0 = 0` convention does not
match the source there.
-/

namespace Abtem

/-- Signed integer frequency index of numpy `fftfreq(n)[i]`:
`[0, 1, …, (n-1)//2, -(n//2), …, -1]`. -/
def fftfreqIndex (n i : ℕ) : ℤ :=
  if i < (n + 1) / 2 then (i : ℤ) else (i : ℤ) - (n : ℤ)

/-- Modelled from the spec: `abtem.utils.spatial_frequencies` (not under
`src/`) returns, per axis, the signed spatial frequencies in standard
FFT ordering scaled by the sampling, i.e. numpy `fftfreq(n, d)` whose
`i`-th entry is `fftfreqIndex n i / (n * d)`. -/
noncomputable def spatial_frequency (n : ℕ) (d : ℝ) (i : ℕ) : ℝ :=
  (fftfreqIndex n i : ℝ) / ((n : ℝ) * d)

/-- The per-axis reciprocal coordinate used by `_polar_regions`
(detect.py line 19-23): `sampling = 1 / angular_sampling / gpts` followed
by `spatial_frequencies(gpts, sampling)`. -/
noncomputable def kalpha (n : ℕ) (angular_sampling : ℝ) (i : ℕ) : ℝ :=
  spatial_frequency n (1 / angular_sampling / (n : ℝ)) i

/-- Radial magnitude field of `_polar_regions` (detect.py line 25):
`alpha[i, j] = sqrt(alpha_x[i] ** 2 + alpha_y[j] ** 2)`. -/
noncomputable def alphaCell (n0 n1 : ℕ) (as0 as1 : ℝ) (i j : ℕ) : ℝ :=
  Real.sqrt (kalpha n0 as0 i ^ 2 + kalpha n1 as1 j ^ 2)

/-- Radial magnitude at a flat (row-major) cell index `f = i * n1 + j`. -/
noncomputable def alphaFlat (n0 n1 : ℕ) (as0 as1 : ℝ) (f : ℕ) : ℝ :=
  alphaCell n0 n1 as0 as1 (f / n1) (f % n1)

/-- Modelled from the spec: numpy `arctan2(y, x)`, the angle of the
point `(x, y)`, with `arctan2(0, 0) = 0`.  `_polar_regions` calls
`np.arctan2(alpha_x, alpha_y)` (detect.py line 32), i.e. `y := alpha_x`,
`x := alpha_y`. -/
noncomputable def arctan2 (y x : ℝ) : ℝ :=
  if 0 < x then Real.arctan (y / x)
  else if x < 0 then
    (if 0 ≤ y then Real.arctan (y / x) + Real.pi else Real.arctan (y / x) - Real.pi)
  else
    (if 0 < y then Real.pi / 2 else if y < 0 then -(Real.pi / 2) else 0)

/-- Numpy floating-point `%`: the remainder takes the sign of the
divisor, so for a positive divisor `b` the result is `a - b * ⌊a / b⌋ ∈
[0, b)`. -/
noncomputable def npmod (a b : ℝ) : ℝ := a - b * ⌊a / b⌋

/-- Radial bin of a valid cell (detect.py line 30):
`radial_bins[valid] = nbins_radial * (alpha[valid] - inner) / (outer - inner)`,
assigned into an integer array (truncation; equal to `floor` on the
nonnegative values produced on the valid mask whenever
`outer > inner`).  The bin is not clipped.  When `outer == inner` the
float division yields NaN for the cells that remain valid
(`alpha == inner` makes the numerator `0.0` as well; off the mask the
result is ±inf) and the cast of NaN/±inf into the `int64` array is
undefined behaviour — on x86-64 numpy stores `INT64_MIN = -2^63`,
which is the junk value modelled here. -/
noncomputable def radialBin (nr : ℤ) (inner outer a : ℝ) : ℤ :=
  if outer - inner = 0 then -(2 ^ 63)
  else ⌊(nr : ℝ) * (a - inner) / (outer - inner)⌋

/-- Azimuthal bin (detect.py lines 32-35):
`angles = arctan2(alpha_x, alpha_y) % (2π)`;
`angular_bins = floor(nbins_azimuthal * (angles / (2π)))`, then
`np.clip(angular_bins, 0, nbins_azimuthal - 1)` which is
`min (na - 1) (max 0 ·)`. -/
noncomputable def angularBin (na : ℤ) (θ : ℝ) : ℤ :=
  min (na - 1) (max 0 ⌊(na : ℝ) * (npmod θ (2 * Real.pi) / (2 * Real.pi))⌋)

/-- Label of the cell with flat index `f` (detect.py lines 27-38): `-1`
outside the validity mask `inner <= alpha <= outer`, otherwise
`angular_bins + radial_bins * nbins_azimuthal`. -/
noncomputable def labelFlat (n0 n1 : ℕ) (as0 as1 inner outer : ℝ) (nr na : ℤ)
    (f : ℕ) : ℤ :=
  let a := alphaFlat n0 n1 as0 as1 f
  if inner ≤ a ∧ a ≤ outer then
    angularBin na (arctan2 (kalpha n0 as0 (f / n1)) (kalpha n1 as1 (f % n1)))
      + radialBin nr inner outer a * na
  else -1

/-- Embedding of `_polar_regions(gpts, angular_sampling, inner, outer, nbins_radial,
nbins_azimuthal)` (detect.py lines 16-39): the `gpts`-shaped integer
label array, flattened in row-major (C) order. -/
noncomputable def polar_regions (n0 n1 : ℕ) (as0 as1 inner outer : ℝ)
    (nr na : ℤ) : List ℤ :=
  (List.range (n0 * n1)).map (labelFlat n0 n1 as0 as1 inner outer nr na)

/-- Numpy `np.max` on a (nonempty) integer array.  All label arrays it
is applied to in `detect.py` are nonempty; the `[]` case is junk. -/
def npMax : List ℤ → ℤ
  | [] => -1
  | x :: xs => xs.foldl max x

/-- Embedding of `_PolarDetector._label_to_index(labels)` (detect.py lines 106-118):
the labels are flattened, stably grouped by value (argsort followed by
`searchsorted` slicing of the sorted run of each value), and for every
value `i` in `range(0, max(labels) + 1)` the flat positions carrying
label `i` are yielded, in increasing label order.  A stable grouping of
positions by label value is exactly a filter of the position range per
label value (numpy's unstable quicksort leaves the order *within* one
group unspecified; every property below is insensitive to that order). -/
def label_to_index (labels : List ℤ) : List (List ℕ) :=
  (List.range (npMax labels + 1).toNat).map fun (i : ℕ) =>
    (List.range labels.length).filter fun j => labels.getD j (-1) = (i : ℤ)

/-- Python `int()` applied to a float: truncation toward zero. -/
noncomputable def pyint (x : ℝ) : ℤ := if 0 ≤ x then ⌊x⌋ else ⌈x⌉

/-- Embedding of `_PolarDetector._get_bins(cutoff_scattering_angle)` (detect.py lines
120-139).  A missing inner limit defaults to `0`; a missing outer limit
is replaced by the cutoff rounded down to a multiple of `radial_steps`
(and it is an error if the cutoff is also missing);
`nbins_radial = int(ceil((outer - inner) / radial_steps))` and
`nbins_azimuthal = int(ceil(2π / azimuthal_steps))` (Python `int()` of
the integral value `np.ceil` returns is the integer itself). -/
noncomputable def get_bins (inner? outer? : Option ℝ)
    (radial_steps azimuthal_steps : ℝ) (cutoff? : Option ℝ) :
    Except String (ℤ × ℤ × ℝ × ℝ) :=
  let inner := inner?.getD 0
  let outerE : Except String ℝ :=
    match outer?, cutoff? with
    | none, none => .error "The outer integration angle is not set."
    | none, some c => .ok (⌊c / radial_steps⌋ * radial_steps)
    | some o, _ => .ok o
  outerE.map fun outer =>
    (⌈(outer - inner) / radial_steps⌉, ⌈2 * Real.pi / azimuthal_steps⌉, inner, outer)

/-- Embedding of `_PolarDetector._get_regions(gpts, angular_sampling,
cutoff_scattering_angle)` (detect.py lines 141-165): bins are resolved,
the labeler runs on the mrad→rad rescaled (`/ 1e3`) geometry, a label
array that is `-1` everywhere raises `Zero-sized detector region.`, and
otherwise the label groups are collected.  (The memoization wrapper
`@cached_method('cache')` is modelled separately on the detector
state.) -/
noncomputable def get_regions (inner? outer? : Option ℝ)
    (radial_steps azimuthal_steps : ℝ) (n0 n1 : ℕ) (as0 as1 : ℝ)
    (cutoff? : Option ℝ) : Except String (List (List ℕ)) :=
  (get_bins inner? outer? radial_steps azimuthal_steps cutoff?).bind
    fun bins =>
      let labels := polar_regions n0 n1 (as0 / 1000) (as1 / 1000)
        (bins.2.2.1 / 1000) (bins.2.2.2 / 1000) bins.1 bins.2.1
      if labels.all fun l => l = -1 then .error "Zero-sized detector region."
      else .ok (label_to_index labels)

/-- The batch of wave functions handed to `detect` /
`allocate_measurement`.  The complex array is modelled as a function of
the batch index and the flat (row-major) cell index; `gpts` are the type
indices `n0, n1`.  `grid_defined` models the state queried by the
external `waves.grid.check_is_defined()`. -/
structure Waves (n0 n1 : ℕ) where
  array : ℕ → ℕ → ℂ
  nbatch : ℕ
  angular_sampling : ℝ × ℝ
  cutoff_scattering_angles : ℝ × ℝ
  grid_defined : Bool

/-- Modelled from the spec: the backend device function `abs2`
(squared magnitude of a complex amplitude, `abtem.device`, not under
`src/`). -/
noncomputable def abs2 (z : ℂ) : ℝ := Complex.normSq z

/-- State of `AnnularDetector` (detect.py lines 243-282): geometry
parameters together with the single-entry region cache.  `radial_steps`
is set to `outer - inner` by `__init__` and is *not* touched by the
`inner` / `outer` property setters.  The cache field is modelled from
the spec: `Cache(1)` of `abtem.base_classes` (not under `src/`), a
single entry keyed by the `_get_regions` arguments
`(gpts, angular_sampling, cutoff_scattering_angle)`. -/
structure AnnularDetector where
  inner : ℝ
  outer : ℝ
  radial_steps : ℝ
  azimuthal_steps : ℝ
  cache : Option (((ℕ × ℕ) × (ℝ × ℝ) × Option ℝ) × List (List ℕ))

/-- Embedding of `AnnularDetector.__init__(inner, outer)` (detect.py line 260-261):
`radial_steps = outer - inner`, default azimuthal step `2π`, empty
cache. -/
noncomputable def AnnularDetector.make (inner outer : ℝ) : AnnularDetector :=
  ⟨inner, outer, outer - inner, 2 * Real.pi, none⟩

/-- The `inner` property setter (detect.py lines 268-271).  Modelled
from the spec: the `@watched_property('changed')` notification
invalidates the detector's caches, so the cache entry is dropped.  Note
that only `_inner` is written; `_radial_steps` keeps its construction
value. -/
def AnnularDetector.set_inner (d : AnnularDetector) (v : ℝ) : AnnularDetector :=
  { d with inner := v, cache := none }

/-- The `outer` property setter (detect.py lines 278-282).  Modelled
from the spec: the `@watched_property('changed')` notification
invalidates the detector's caches, so the cache entry is dropped.  Note
that only `_outer` (and `_max_detected_angle`) are written;
`_radial_steps` keeps its construction value. -/
def AnnularDetector.set_outer (d : AnnularDetector) (v : ℝ) : AnnularDetector :=
  { d with outer := v, cache := none }

open Classical in
/-- Modelled from the spec: the `@cached_method('cache')` wrapper around
`_get_regions` (detect.py line 141): a call whose key matches the cached
entry returns the cached value; otherwise the regions are recomputed
from the detector's current geometry and stored.  Returns the value
together with the updated detector state. -/
noncomputable def AnnularDetector.regions (d : AnnularDetector)
    (gpts : ℕ × ℕ) (as : ℝ × ℝ) (cutoff? : Option ℝ) :
    Except String (List (List ℕ) × AnnularDetector) :=
  let recompute : Except String (List (List ℕ) × AnnularDetector) :=
    (get_regions (some d.inner) (some d.outer) d.radial_steps
        d.azimuthal_steps gpts.1 gpts.2 as.1 as.2 cutoff?).map
      fun v => (v, { d with cache := some (((gpts, as, cutoff?)), v) })
  match d.cache with
  | some (k, v) => if k = (gpts, as, cutoff?) then .ok (v, d) else recompute
  | none => recompute

/-- Embedding of `AnnularDetector._integrate_array(array, angular_sampling,
cutoff_scattering_angle, normalize)` (detect.py lines 284-293): the
first (and only) region's flat indices are summed per batch element;
with `normalize` the sum is divided by the total intensity of the
batch element over the whole grid. -/
noncomputable def AnnularDetector.integrate_array (d : AnnularDetector)
    (n0 n1 : ℕ) (intensity : ℕ → ℕ → ℝ) (as : ℝ × ℝ) (cutoff : ℝ)
    (normalize : Bool) : Except String (ℕ → ℝ) :=
  (d.regions (n0, n1) as (some cutoff)).map fun rv => fun b =>
    let values := ((rv.1.headD []).map (intensity b)).sum
    if normalize then values / ((List.range (n0 * n1)).map (intensity b)).sum
    else values

/-- Embedding of `AnnularDetector.detect(waves, normalize)` (detect.py lines
326-348): `intensity = abs2(fft2(waves.array))`, integrated by
`_integrate_array` with `cutoff = min(waves.cutoff_scattering_angles)`.
The backend `fft2` primitive (`abtem.device`, not under `src/`) is
passed as a parameter; modelled from the spec: "wave array → 2D FFT →
squared-magnitude intensity". -/
noncomputable def AnnularDetector.detect (d : AnnularDetector) {n0 n1 : ℕ}
    (w : Waves n0 n1) (fft2 : (ℕ → ℕ → ℂ) → ℕ → ℕ → ℂ)
    (normalize : Bool) : Except String (ℕ → ℝ) :=
  d.integrate_array n0 n1 (fun b f => abs2 (fft2 w.array b f))
    w.angular_sampling
    (min w.cutoff_scattering_angles.1 w.cutoff_scattering_angles.2) normalize

/-- Geometry state of `SegmentedDetector` (detect.py lines 438-463). -/
structure SegmentedDetector where
  inner : ℝ
  outer : ℝ
  radial_steps : ℝ
  azimuthal_steps : ℝ

/-- Embedding of `SegmentedDetector.__init__(inner, outer, nbins_radial,
nbins_angular)` (detect.py lines 459-463):
`radial_steps = (outer - inner) / nbins_radial` and
`azimuthal_steps = 2π / nbins_angular`. -/
noncomputable def SegmentedDetector.make (inner outer : ℝ)
    (nbins_radial nbins_angular : ℕ) : SegmentedDetector :=
  ⟨inner, outer, (outer - inner) / (nbins_radial : ℝ),
    2 * Real.pi / (nbins_angular : ℝ)⟩

/-- Embedding of the `SegmentedDetector.nbins_radial` property (detect.py line 488):
`int((outer - inner) / radial_steps)` (Python truncation). -/
noncomputable def SegmentedDetector.nbins_radial (d : SegmentedDetector) : ℤ :=
  pyint ((d.outer - d.inner) / d.radial_steps)

/-- Embedding of the `SegmentedDetector.nbins_angular` property (detect.py line 498):
`int(2π / azimuthal_steps)` (Python truncation). -/
noncomputable def SegmentedDetector.nbins_angular (d : SegmentedDetector) : ℤ :=
  pyint (2 * Real.pi / d.azimuthal_steps)

/-- The separators array of the run-length reduction (detect.py lines
421, 531): `concatenate(([0], cumsum([len(ring) for ring in indices])))`,
written recursively: `[0, l₀, l₀+l₁, …]`. -/
def separators : List ℕ → List ℕ
  | [] => [0]
  | l :: ls => 0 :: (separators ls).map (l + ·)

/-- Modelled from the spec: the backend device primitive
`sum_run_length_encoded(values, result, separators)` (`abtem.device`,
not under `src/`): `result[g] = sum(values[separators[g] :
separators[g+1]])` for each of the `len(separators) - 1` runs. -/
def sum_run_length (values : List ℝ) (seps : List ℕ) : List ℝ :=
  (List.range (seps.length - 1)).map fun g =>
    ((values.drop (seps.getD g 0)).take (seps.getD (g + 1) 0 - seps.getD g 0)).sum

/-- Embedding of `SegmentedDetector.detect(waves)` (detect.py lines 505-536): the
intensity is gathered region-contiguously
(`intensity.reshape(batch, -1)[:, concatenate(indices)]`), reduced by
runs, and the `(batch, num_groups)` result is reshaped to
`(-1, nbins_radial, nbins_angular)` and divided by the per-batch total
`total[:, None, None]`.  The numpy reshape fails unless
`batch * num_groups` is divisible by `nbins_radial * nbins_angular`, and
the broadcast of the division fails unless the reshaped first dimension
equals `batch` (or either of the two is `1`, in which case numpy
broadcasts that operand; the entry formulas below follow numpy's
row-major flat indexing and broadcasting).  The result is the reshaped
first dimension together with the entry function `(c, r, a) ↦ value`. -/
noncomputable def SegmentedDetector.detect (d : SegmentedDetector)
    {n0 n1 : ℕ} (w : Waves n0 n1) (fft2 : (ℕ → ℕ → ℂ) → ℕ → ℕ → ℂ) :
    Except String (ℕ × (ℕ → ℕ → ℕ → ℝ)) :=
  let intensity := fun b f => abs2 (fft2 w.array b f)
  (get_regions (some d.inner) (some d.outer) d.radial_steps
      d.azimuthal_steps n0 n1 w.angular_sampling.1 w.angular_sampling.2
      (some (min w.cutoff_scattering_angles.1
        w.cutoff_scattering_angles.2))).bind fun regs =>
    let total := fun b => ((List.range (n0 * n1)).map (intensity b)).sum
    let seps := separators (regs.map List.length)
    let result := fun b => sum_run_length ((regs.flatten).map (intensity b)) seps
    let G := regs.length
    let nr := d.nbins_radial.toNat
    let na := d.nbins_angular.toNat
    if (w.nbatch * G) % (nr * na) ≠ 0 then .error "cannot reshape array"
    else
      let B := w.nbatch * G / (nr * na)
      if B ≠ w.nbatch ∧ B ≠ 1 ∧ w.nbatch ≠ 1 then
        .error "operands could not be broadcast together"
      else
        .ok (max B w.nbatch, fun c r a =>
          let cx := if B = 1 then 0 else c
          let flat := cx * (nr * na) + r * na + a
          (result (flat / G)).getD (flat % G) 0
            / total (if w.nbatch = 1 then 0 else c))

/-- The `max_angle` argument of `PixelatedDetector` (detect.py line
565): either a string mode (default `'valid'`), a number, or `None`. -/
inductive MaxAngle where
  | str (s : String)
  | num (x : ℝ)
  | nil

/-- Embedding of `check_max_angle_exceeded(waves, max_angle)` (detect.py lines
42-48): a string `max_angle` returns immediately without any
comparison; `None` performs no comparison either; a numeric `max_angle`
raises iff it exceeds `min(waves.cutoff_scattering_angles)`. -/
noncomputable def check_max_angle_exceeded (cutoffs : ℝ × ℝ)
    (max_angle : MaxAngle) : Except String Unit :=
  match max_angle with
  | .str _ => .ok ()
  | .nil => .ok ()
  | .num x =>
    if min cutoffs.1 cutoffs.2 < x then
      .error "Detector max angle exceeds the cutoff scattering angle."
    else .ok ()

/-- Embedding of `PixelatedDetector.allocate_measurement(waves, scan)` (detect.py
lines 645-693), up to its guards: `waves.grid.check_is_defined()`
(modelled from the spec: the precondition error of the external
`Grid` collaborator, `abtem.base_classes`, not under `src/`), then
`check_max_angle_exceeded(waves, self.max_angle)`.  The subsequent
measurement construction (downsampled gpts, calibrations, the
`Measurement` container and the optional write hook) involves only
external collaborators and raises neither of the errors claimed here;
it is modelled as returning `()`. -/
noncomputable def pixelated_allocate_measurement {n0 n1 : ℕ}
    (w : Waves n0 n1) (max_angle : MaxAngle) : Except String Unit :=
  if ¬ w.grid_defined then .error "Grid is not defined."
  else check_max_angle_exceeded w.cutoff_scattering_angles max_angle

/-- A 1×1-grid wave batch used as a concrete test input: unit
amplitude, one batch element, angular sampling `(1, 1)` mrad, cutoff
angles `(1, 1)` mrad. -/
def wavesUnit : Waves 1 1 := ⟨fun _ _ => 1, 1, (1, 1), (1, 1), true⟩

/-- A 2×1-grid wave batch used as a concrete test input: unit
amplitude, one batch element, angular sampling `(15, 15)` mrad (so the
two cells sit at scattering angles `0` and `15` mrad), cutoff angles
`(100, 100)` mrad. -/
def wavesTwo : Waves 2 1 := ⟨fun _ _ => 1, 1, (15, 15), (100, 100), true⟩

/-- The identity stand-in for the backend `fft2` parameter: test inputs
below provide the (constant) Fourier amplitudes directly. -/
def fftId : (ℕ → ℕ → ℂ) → ℕ → ℕ → ℂ := fun a => a

/-- Transcription of the *specification's* radial-bin formula (spec
§4.2 step 4): `floor(nbins_radial * (alpha - inner) / (outer - inner))`,
not clipped.  Stated separately from `radialBin` so that the labeler can
be compared against the spec's wording. -/
noncomputable def radialBinSpec (nr : ℤ) (inner outer a : ℝ) : ℤ :=
  ⌊(nr : ℝ) * (a - inner) / (outer - inner)⌋

/-- Transcription of the *specification's* azimuthal-bin formula (spec
§4.2 step 5): `floor(nbins_azimuthal * angle/(2π))` where `angle =
atan2(kx, ky) mod 2π` (so `angle/(2π)` is the fractional part of
`θ/(2π)`), clipped to `[0, nbins_azimuthal - 1]`. -/
noncomputable def angularBinSpec (na : ℤ) (θ : ℝ) : ℤ :=
  let raw := ⌊(na : ℝ) * Int.fract (θ / (2 * Real.pi))⌋
  if raw < 0 then 0 else if na - 1 < raw then na - 1 else raw

/-- Transcription of the *specification's* combined label (spec §4.2
step 6 / claim C2): valid cells get `azimuthal_bin + radial_bin *
nbins_azimuthal`, invalid cells get `-1`. -/
noncomputable def labelSpec (n0 n1 : ℕ) (as0 as1 inner outer : ℝ)
    (nr na : ℤ) (f : ℕ) : ℤ :=
  let a := alphaFlat n0 n1 as0 as1 f
  if inner ≤ a ∧ a ≤ outer then
    angularBinSpec na (arctan2 (kalpha n0 as0 (f / n1)) (kalpha n1 as1 (f % n1)))
      + radialBinSpec nr inner outer a * na
  else -1

/-! ### Helper lemmas -/

lemma le_foldl_max_init (l : List ℤ) (a : ℤ) : a ≤ l.foldl max a := by
  induction l generalizing a with
  | nil => exact le_rfl
  | cons b l ih => exact le_trans (le_max_left a b) (ih (max a b))

lemma le_foldl_max_mem {l : List ℤ} {x : ℤ} (hx : x ∈ l) (a : ℤ) :
    x ≤ l.foldl max a := by
  induction l generalizing a with
  | nil => cases hx
  | cons b l ih =>
    rcases List.mem_cons.mp hx with h | h
    · subst h
      exact le_trans (le_max_right a x) (le_foldl_max_init l (max a x))
    · exact ih h (max a b)

lemma foldl_max_le {l : List ℤ} {a m : ℤ} (ha : a ≤ m)
    (h : ∀ x ∈ l, x ≤ m) : l.foldl max a ≤ m := by
  induction l generalizing a with
  | nil => exact ha
  | cons b l ih =>
    exact ih (max_le ha (h b (List.mem_cons_self b l)))
      fun x hx => h x (List.mem_cons_of_mem _ hx)

lemma le_npMax {labels : List ℤ} {x : ℤ} (hx : x ∈ labels) : x ≤ npMax labels := by
  cases labels with
  | nil => cases hx
  | cons b l =>
    rcases List.mem_cons.mp hx with h | h
    · subst h; exact le_foldl_max_init l x
    · exact le_foldl_max_mem h b

lemma npMax_le {labels : List ℤ} {m : ℤ} (hne : labels ≠ [])
    (h : ∀ x ∈ labels, x ≤ m) : npMax labels ≤ m := by
  cases labels with
  | nil => exact absurd rfl hne
  | cons b l =>
    exact foldl_max_le (h b (List.mem_cons_self b l))
      fun x hx => h x (List.mem_cons_of_mem _ hx)

lemma label_to_index_length (labels : List ℤ) :
    (label_to_index labels).length = (npMax labels + 1).toNat := by
  rw [label_to_index, List.length_map, List.length_range]

lemma mem_label_to_index {labels : List ℤ} {i : ℕ}
    (hi : i < (label_to_index labels).length) (j : ℕ) :
    j ∈ (label_to_index labels).getD i [] ↔
      j < labels.length ∧ labels.getD j (-1) = (i : ℤ) := by
  rw [List.getD_eq_getElem _ _ hi]
  simp only [label_to_index, List.getElem_map, List.getElem_range,
    List.mem_filter, List.mem_range, decide_eq_true_eq]

lemma polar_regions_length (n0 n1 : ℕ) (as0 as1 inner outer : ℝ) (nr na : ℤ) :
    (polar_regions n0 n1 as0 as1 inner outer nr na).length = n0 * n1 := by
  simp [polar_regions]

lemma polar_regions_getD {n0 n1 : ℕ} (as0 as1 inner outer : ℝ) (nr na : ℤ)
    {f : ℕ} (hf : f < n0 * n1) :
    (polar_regions n0 n1 as0 as1 inner outer nr na).getD f (-1)
      = labelFlat n0 n1 as0 as1 inner outer nr na f := by
  rw [List.getD_eq_getElem]
  · simp [polar_regions]
  · simpa [polar_regions] using hf

lemma mem_polar_regions {n0 n1 : ℕ} {as0 as1 inner outer : ℝ} {nr na : ℤ}
    {x : ℤ} (hx : x ∈ polar_regions n0 n1 as0 as1 inner outer nr na) :
    ∃ f < n0 * n1, labelFlat n0 n1 as0 as1 inner outer nr na f = x := by
  simp only [polar_regions, List.mem_map, List.mem_range] at hx
  obtain ⟨f, hf, h⟩ := hx
  exact ⟨f, hf, h⟩

lemma labelFlat_mem_polar_regions {n0 n1 : ℕ} (as0 as1 inner outer : ℝ)
    (nr na : ℤ) {f : ℕ} (hf : f < n0 * n1) :
    labelFlat n0 n1 as0 as1 inner outer nr na f
      ∈ polar_regions n0 n1 as0 as1 inner outer nr na := by
  simp only [polar_regions, List.mem_map, List.mem_range]
  exact ⟨f, hf, rfl⟩

lemma radialBin_nonneg {nr : ℤ} {inner outer a : ℝ} (hnr : 0 ≤ nr)
    (hio : inner < outer) (h1 : inner ≤ a) : 0 ≤ radialBin nr inner outer a := by
  unfold radialBin
  rw [if_neg (sub_ne_zero.mpr hio.ne')]
  exact Int.floor_nonneg.mpr (div_nonneg
    (mul_nonneg (by exact_mod_cast hnr) (sub_nonneg.mpr h1)) (by linarith))

lemma angularBin_nonneg {na : ℤ} (hna : 1 ≤ na) (θ : ℝ) :
    0 ≤ angularBin na θ :=
  le_min (by omega) (le_max_left 0 _)

lemma angularBin_le (na : ℤ) (θ : ℝ) : angularBin na θ ≤ na - 1 :=
  min_le_left _ _

lemma labelFlat_nonneg {n0 n1 : ℕ} {as0 as1 inner outer : ℝ} {nr na : ℤ}
    (hnr : 0 ≤ nr) (hna : 1 ≤ na) (hio : inner < outer) {f : ℕ}
    (hv : inner ≤ alphaFlat n0 n1 as0 as1 f ∧ alphaFlat n0 n1 as0 as1 f ≤ outer) :
    0 ≤ labelFlat n0 n1 as0 as1 inner outer nr na f := by
  unfold labelFlat
  rw [if_pos hv]
  exact add_nonneg (angularBin_nonneg hna _)
    (mul_nonneg (radialBin_nonneg hnr hio hv.1) (by omega))

lemma labelFlat_eq_neg_one {n0 n1 : ℕ} {as0 as1 inner outer : ℝ} {nr na : ℤ}
    (hnr : 0 ≤ nr) (hna : 1 ≤ na) (hio : inner < outer) (f : ℕ) :
    labelFlat n0 n1 as0 as1 inner outer nr na f = -1 ↔
      ¬(inner ≤ alphaFlat n0 n1 as0 as1 f ∧ alphaFlat n0 n1 as0 as1 f ≤ outer) := by
  constructor
  · intro h hv
    have := @labelFlat_nonneg n0 n1 as0 as1 inner outer nr na hnr hna hio f hv
    omega
  · intro hv
    unfold labelFlat
    rw [if_neg hv]

lemma floor_eq_of {x : ℝ} {z : ℤ} (h1 : (z : ℝ) ≤ x) (h2 : x < z + 1) :
    ⌊x⌋ = z :=
  Int.floor_eq_iff.mpr ⟨h1, h2⟩

lemma fftfreqIndex_zero (n : ℕ) : fftfreqIndex n 0 = 0 := by
  unfold fftfreqIndex
  split
  · rfl
  · rename_i h
    have : n = 0 := by omega
    simp [this]

lemma kalpha_zero (n : ℕ) (as : ℝ) : kalpha n as 0 = 0 := by
  simp [kalpha, spatial_frequency, fftfreqIndex_zero]

lemma kalpha_two_one (as : ℝ) : kalpha 2 as 1 = -as := by
  have h1 : fftfreqIndex 2 1 = -1 := by decide
  rw [kalpha, spatial_frequency, h1]
  have h2 : ((2 : ℕ) : ℝ) * (1 / as / (2 : ℕ)) = as⁻¹ := by
    push_cast
    ring
  rw [h2, div_inv_eq_mul]
  push_cast
  ring

lemma alphaFlat_zero (n0 n1 : ℕ) (as0 as1 : ℝ) :
    alphaFlat n0 n1 as0 as1 0 = 0 := by
  simp [alphaFlat, alphaCell, kalpha_zero]

lemma alphaFlat_two_one (as0 as1 : ℝ) (h : 0 ≤ as0) :
    alphaFlat 2 1 as0 as1 1 = as0 := by
  have h1 : (1 : ℕ) / 1 = 1 := rfl
  have h2 : (1 : ℕ) % 1 = 0 := rfl
  rw [alphaFlat, h1, h2, alphaCell, kalpha_two_one, kalpha_zero]
  rw [show (-as0) ^ 2 + (0 : ℝ) ^ 2 = as0 ^ 2 by ring]
  exact Real.sqrt_sq h

lemma arctan2_zero_zero : arctan2 0 0 = 0 := by
  simp [arctan2]

lemma arctan2_neg_zero {y : ℝ} (hy : y < 0) : arctan2 y 0 = -(Real.pi / 2) := by
  rw [arctan2]
  rw [if_neg (lt_irrefl 0), if_neg (lt_irrefl 0), if_neg (not_lt.mpr hy.le),
    if_pos hy]

lemma npmod_zero (b : ℝ) : npmod 0 b = 0 := by
  simp [npmod]

lemma angularBin_zero {na : ℤ} (hna : 1 ≤ na) : angularBin na 0 = 0 := by
  rw [angularBin, npmod_zero, zero_div, mul_zero, Int.floor_zero, max_self]
  exact min_eq_right (by omega)

lemma labelFlat_zero_cell (n0 n1 : ℕ) (as0 as1 inner outer : ℝ) (nr na : ℤ)
    (h1 : inner ≤ 0) (h2 : 0 ≤ outer) (hna : 1 ≤ na)
    (hrad : radialBin nr inner outer 0 = 0) :
    labelFlat n0 n1 as0 as1 inner outer nr na 0 = 0 := by
  unfold labelFlat
  simp only [alphaFlat_zero, Nat.zero_div, Nat.zero_mod, kalpha_zero,
    arctan2_zero_zero]
  rw [if_pos ⟨h1, h2⟩, hrad, angularBin_zero hna, zero_mul, add_zero]

lemma angularBin_one_neg_half_pi : angularBin 1 (-(Real.pi / 2)) = 0 := by
  have hpi : (0 : ℝ) < 2 * Real.pi := by positivity
  have hq : (-(Real.pi / 2)) / (2 * Real.pi) = -(1 / 4) := by
    rw [div_eq_iff (ne_of_gt hpi)]
    ring
  have hfl : ⌊(-(Real.pi / 2)) / (2 * Real.pi)⌋ = -1 := by
    rw [hq]
    norm_num
  have hm : npmod (-(Real.pi / 2)) (2 * Real.pi) = 3 * Real.pi / 2 := by
    rw [npmod, hfl]
    push_cast
    ring
  rw [angularBin, hm]
  have hq2 : 3 * Real.pi / 2 / (2 * Real.pi) = 3 / 4 := by
    rw [div_eq_iff (ne_of_gt hpi)]
    ring
  rw [hq2]
  norm_num

lemma labelFlat_c5_cell1 (as1 inner outer : ℝ) (nr : ℤ)
    (h1 : inner ≤ 15 / 1000) (h2 : 15 / 1000 ≤ outer) :
    labelFlat 2 1 (15 / 1000) as1 inner outer nr 1 1
      = radialBin nr inner outer (15 / 1000) := by
  unfold labelFlat
  have ha : alphaFlat 2 1 (15 / 1000) as1 1 = 15 / 1000 :=
    alphaFlat_two_one _ _ (by norm_num)
  simp only [ha]
  rw [if_pos ⟨h1, h2⟩]
  have hk1 : (1 : ℕ) / 1 = 1 := rfl
  have hk2 : (1 : ℕ) % 1 = 0 := rfl
  rw [hk1, hk2, kalpha_two_one, kalpha_zero,
    arctan2_neg_zero (by norm_num : -((15 : ℝ) / 1000) < 0),
    angularBin_one_neg_half_pi, mul_one, zero_add]

lemma polar_regions_one_one (as0 as1 inner outer : ℝ) (nr na : ℤ) :
    polar_regions 1 1 as0 as1 inner outer nr na
      = [labelFlat 1 1 as0 as1 inner outer nr na 0] := by
  rw [polar_regions]
  norm_num [List.range_succ]

lemma polar_regions_two_one (as0 as1 inner outer : ℝ) (nr na : ℤ) :
    polar_regions 2 1 as0 as1 inner outer nr na
      = [labelFlat 2 1 as0 as1 inner outer nr na 0,
         labelFlat 2 1 as0 as1 inner outer nr na 1] := by
  rw [polar_regions]
  norm_num [List.range_succ]

lemma ceil_two_pi_div_self : (⌈2 * Real.pi / (2 * Real.pi)⌉ : ℤ) = 1 := by
  rw [div_self (by positivity : (2 * Real.pi) ≠ 0)]
  norm_num

lemma get_regions_unit (inner outer rs az as0 as1 : ℝ) (c? : Option ℝ)
    (h1 : inner ≤ 0) (h2 : 0 ≤ outer)
    (hna : 1 ≤ (⌈2 * Real.pi / az⌉ : ℤ))
    (hrad : radialBin ⌈(outer - inner) / rs⌉ (inner / 1000) (outer / 1000) 0 = 0) :
    get_regions (some inner) (some outer) rs az 1 1 as0 as1 c? = .ok [[0]] := by
  rw [get_regions, get_bins]
  simp only [Option.getD_some]
  show (Except.ok ((⌈(outer - inner) / rs⌉ : ℤ), (⌈2 * Real.pi / az⌉ : ℤ),
      inner, outer)).bind _ = _
  rw [Except.bind]
  simp only
  rw [polar_regions_one_one]
  rw [labelFlat_zero_cell 1 1 (as0 / 1000) (as1 / 1000) (inner / 1000)
    (outer / 1000) _ _ (by linarith) (by positivity) hna hrad]
  have hlab : label_to_index [0] = [[0]] := by decide
  norm_num [hlab]

lemma get_regions_some_eq (inner outer rs az : ℝ) (n0 n1 : ℕ)
    (as0 as1 : ℝ) (c? : Option ℝ) :
    get_regions (some inner) (some outer) rs az n0 n1 as0 as1 c?
      = (if (polar_regions n0 n1 (as0 / 1000) (as1 / 1000) (inner / 1000)
              (outer / 1000) ⌈(outer - inner) / rs⌉ ⌈2 * Real.pi / az⌉).all
            (fun l => l = -1)
          then .error "Zero-sized detector region."
          else .ok (label_to_index (polar_regions n0 n1 (as0 / 1000)
              (as1 / 1000) (inner / 1000) (outer / 1000)
              ⌈(outer - inner) / rs⌉ ⌈2 * Real.pi / az⌉))) := rfl

/-! ### Claim theorems -/

/-- C1: for every grid shape, angular sampling, and parameters `inner`,
`outer`, `nbins_radial`, `nbins_azimuthal` with `outer > inner` (the bin
counts being the nonnegative resp. positive values `_get_bins`
produces), the region index groups computed via `_polar_regions` and
`_label_to_index` partition the valid cells: a flat index belongs to
some group iff it is a grid cell whose radial magnitude `alpha`
satisfies `inner ≤ alpha ≤ outer`, and distinct groups are disjoint. -/
theorem C1_polar_region_partition (n0 n1 : ℕ) (as0 as1 inner outer : ℝ)
    (nr na : ℤ) (hio : inner < outer) (hnr : 0 ≤ nr) (hna : 1 ≤ na) :
    (∀ j : ℕ,
      (∃ g ∈ label_to_index (polar_regions n0 n1 as0 as1 inner outer nr na), j ∈ g)
        ↔ j < n0 * n1 ∧ inner ≤ alphaFlat n0 n1 as0 as1 j
            ∧ alphaFlat n0 n1 as0 as1 j ≤ outer)
    ∧ ∀ p q : ℕ, p ≠ q → ∀ j : ℕ,
        j ∈ (label_to_index (polar_regions n0 n1 as0 as1 inner outer nr na)).getD p []
        → j ∉ (label_to_index (polar_regions n0 n1 as0 as1 inner outer nr na)).getD q [] := by
  set labels := polar_regions n0 n1 as0 as1 inner outer nr na with hl
  have hlen : labels.length = n0 * n1 := polar_regions_length _ _ _ _ _ _ _ _
  constructor
  · intro j
    constructor
    · rintro ⟨g, hg, hj⟩
      obtain ⟨i, hi, hgi⟩ := List.mem_iff_getElem.mp hg
      have hj' : j ∈ (label_to_index labels).getD i [] := by
        rw [List.getD_eq_getElem _ _ hi, hgi]
        exact hj
      obtain ⟨hjlen, hjlab⟩ := (mem_label_to_index hi j).mp hj'
      have hjN : j < n0 * n1 := hlen ▸ hjlen
      refine ⟨hjN, ?_⟩
      by_contra hv
      have hneg : labelFlat n0 n1 as0 as1 inner outer nr na j = -1 :=
        (labelFlat_eq_neg_one hnr hna hio j).mpr fun hvv => hv ⟨hvv.1, hvv.2⟩
      rw [polar_regions_getD _ _ _ _ _ _ hjN, hneg] at hjlab
      omega
    · rintro ⟨hjN, hv1, hv2⟩
      have hnn : 0 ≤ labelFlat n0 n1 as0 as1 inner outer nr na j :=
        labelFlat_nonneg hnr hna hio ⟨hv1, hv2⟩
      have hmem : labelFlat n0 n1 as0 as1 inner outer nr na j ∈ labels :=
        labelFlat_mem_polar_regions _ _ _ _ _ _ hjN
      have hle : labelFlat n0 n1 as0 as1 inner outer nr na j ≤ npMax labels :=
        le_npMax hmem
      have hi : (labelFlat n0 n1 as0 as1 inner outer nr na j).toNat
          < (label_to_index labels).length := by
        rw [label_to_index_length]
        omega
      refine ⟨(label_to_index labels).getD
        (labelFlat n0 n1 as0 as1 inner outer nr na j).toNat [], ?_, ?_⟩
      · rw [List.getD_eq_getElem _ _ hi]
        exact List.getElem_mem hi
      · rw [mem_label_to_index hi]
        refine ⟨hlen ▸ hjN, ?_⟩
        rw [polar_regions_getD _ _ _ _ _ _ hjN]
        omega
  · intro p q hpq j hp hq
    by_cases hplen : p < (label_to_index labels).length
    · by_cases hqlen : q < (label_to_index labels).length
      · have h1 := ((mem_label_to_index hplen j).mp hp).2
        have h2 := ((mem_label_to_index hqlen j).mp hq).2
        rw [h1] at h2
        exact hpq (by exact_mod_cast h2)
      · rw [List.getD_eq_default _ _ (le_of_not_lt hqlen)] at hq
        cases hq
    · rw [List.getD_eq_default _ _ (le_of_not_lt hplen)] at hp
      cases hp

/-- Witness for C1 at the concrete input `n0 = n1 = 1`,
angular sampling `(1, 1)`, `inner = 0`, `outer = 1`, `nr = na = 1`. -/
theorem C1_polar_region_partition_witness :
    ((0 : ℝ) < 1 ∧ (0 : ℤ) ≤ 1 ∧ (1 : ℤ) ≤ 1)
    ∧ ((∀ j : ℕ,
        (∃ g ∈ label_to_index (polar_regions 1 1 1 1 0 1 1 1), j ∈ g)
          ↔ j < 1 * 1 ∧ (0 : ℝ) ≤ alphaFlat 1 1 1 1 j ∧ alphaFlat 1 1 1 1 j ≤ 1)
      ∧ ∀ p q : ℕ, p ≠ q → ∀ j : ℕ,
          j ∈ (label_to_index (polar_regions 1 1 1 1 0 1 1 1)).getD p []
          → j ∉ (label_to_index (polar_regions 1 1 1 1 0 1 1 1)).getD q []) :=
  ⟨⟨by norm_num, by norm_num, le_rfl⟩,
    C1_polar_region_partition 1 1 1 1 0 1 1 1 (by norm_num) (by norm_num) le_rfl⟩


lemma radialBin_eq_spec {inner outer : ℝ} (h : outer - inner ≠ 0)
    (nr : ℤ) (a : ℝ) :
    radialBin nr inner outer a = radialBinSpec nr inner outer a := by
  rw [radialBin, if_neg h]
  rfl

lemma npmod_div_self (θ : ℝ) {b : ℝ} (hb : b ≠ 0) :
    npmod θ b / b = Int.fract (θ / b) := by
  rw [npmod, sub_div, mul_div_cancel_left₀ _ hb, Int.self_sub_floor]

lemma angularBin_eq_spec {na : ℤ} (hna : 1 ≤ na) (θ : ℝ) :
    angularBin na θ = angularBinSpec na θ := by
  rw [angularBin]
  simp only [angularBinSpec]
  rw [npmod_div_self θ (by positivity : (2 * Real.pi) ≠ 0)]
  set x := ⌊(na : ℝ) * Int.fract (θ / (2 * Real.pi))⌋ with hx
  rcases lt_or_le x 0 with h | h
  · rw [if_pos h, max_eq_left h.le, min_eq_right (by omega)]
  · rw [max_eq_right h, if_neg (not_lt.mpr h)]
    rcases lt_or_le (na - 1) x with h2 | h2
    · rw [if_pos h2, min_eq_left h2.le]
    · rw [if_neg (not_lt.mpr h2), min_eq_right h2]

/-- C2 counterexample: with `inner = outer = 0` on a 1×1 grid the
zero-frequency cell is still valid (`alpha = 0 = inner = outer`), but
the code's radial expression is `nbins_radial * 0.0 / 0.0 = NaN` whose
`int64` cast is undefined (INT64_MIN on x86-64), so the stored label is
the junk value `0 + INT64_MIN * nbins_azimuthal` — not the value of the
claim's floor formula (the spec-side transcription yields label `0`
here). -/
theorem C2_label_counterexample :
    labelFlat 1 1 1 1 0 0 2 1 0 = -(2 ^ 63)
    ∧ labelSpec 1 1 1 1 0 0 2 1 0 = 0
    ∧ labelFlat 1 1 1 1 0 0 2 1 0 ≠ labelSpec 1 1 1 1 0 0 2 1 0 := by
  have h1 : labelFlat 1 1 1 1 0 0 2 1 0 = -(2 ^ 63) := by
    unfold labelFlat
    simp only [alphaFlat_zero, Nat.zero_div, Nat.zero_mod, kalpha_zero,
      arctan2_zero_zero]
    rw [if_pos ⟨le_rfl, le_rfl⟩, angularBin_zero le_rfl, radialBin,
      if_pos (by norm_num : (0 : ℝ) - 0 = 0)]
    ring
  have h2 : labelSpec 1 1 1 1 0 0 2 1 0 = 0 := by
    unfold labelSpec
    simp only [alphaFlat_zero, Nat.zero_div, Nat.zero_mod, kalpha_zero,
      arctan2_zero_zero]
    rw [if_pos ⟨le_rfl, le_rfl⟩]
    norm_num [angularBinSpec, radialBinSpec, Int.fract_zero]
  refine ⟨h1, h2, ?_⟩
  rw [h1, h2]
  decide

/-- C2 corrected: for a non-degenerate annulus (`inner < outer`) every
cell gets label `-1` when `alpha` lies outside `[inner, outer]`, and
valid cells get `azimuthal_bin + radial_bin * nbins_azimuthal` where
the radial bin is `floor(nbins_radial * (alpha - inner) /
(outer - inner))` without clipping and the azimuthal bin is
`floor(nbins_azimuthal * ((atan2(kx, ky) mod 2π) / (2π)))` clipped to
`[0, nbins_azimuthal - 1]`; in particular a cell with `alpha = outer`
receives radial bin `nbins_radial`.  When `outer == inner` the claim's
radial formula is `0/0` for the cells that remain valid and the code
stores the undefined NaN→int cast instead (see the counterexample). -/
theorem C2_label_formula_amended (n0 n1 : ℕ) (as0 as1 inner outer : ℝ)
    (nr na : ℤ) (hna : 1 ≤ na) (hio : inner < outer) :
    (∀ f : ℕ, labelFlat n0 n1 as0 as1 inner outer nr na f
        = labelSpec n0 n1 as0 as1 inner outer nr na f)
    ∧ radialBin nr inner outer outer = nr := by
  constructor
  · intro f
    simp only [labelFlat, labelSpec, angularBin_eq_spec hna,
      radialBin_eq_spec (sub_ne_zero.mpr hio.ne')]
  · rw [radialBin, if_neg (sub_ne_zero.mpr hio.ne'), mul_div_assoc,
      div_self (sub_ne_zero.mpr hio.ne'), mul_one, Int.floor_intCast]

/-- Witness for C2's amended statement at the concrete input
`n0 = n1 = 1`, angular sampling `(1, 1)`, `inner = 0`, `outer = 1`,
`nr = na = 1`. -/
theorem C2_label_formula_amended_witness :
    ((1 : ℤ) ≤ 1 ∧ (0 : ℝ) < 1)
    ∧ ((∀ f : ℕ, labelFlat 1 1 1 1 0 1 1 1 f = labelSpec 1 1 1 1 0 1 1 1 f)
      ∧ radialBin 1 0 1 1 = 1) :=
  ⟨⟨le_rfl, by norm_num⟩,
    C2_label_formula_amended 1 1 1 1 0 1 1 1 le_rfl (by norm_num)⟩

/-- C3 counterexample: on a 1×1 grid with angular sampling `(1, 1)`,
`inner = 0`, `outer = 1`, `nbins_radial = 2`, `nbins_azimuthal = 1`, the
single cell (`alpha = 0`) gets label `0`, so `np.max(labels) = 0` and
`_label_to_index` yields exactly one group — not
`nbins_radial * nbins_azimuthal = 2` groups as the claim states. -/
theorem C3_counterexample :
    (label_to_index (polar_regions 1 1 1 1 0 1 2 1)).length = 1
    ∧ (label_to_index (polar_regions 1 1 1 1 0 1 2 1)).length ≠ 2 * 1 := by
  have h0 : labelFlat 1 1 1 1 0 1 2 1 0 = 0 :=
    labelFlat_zero_cell 1 1 1 1 0 1 2 1 le_rfl zero_le_one le_rfl
      (by rw [radialBin]; norm_num)
  have h : polar_regions 1 1 1 1 0 1 2 1 = [0] := by
    rw [polar_regions_one_one, h0]
  rw [h]
  exact ⟨by decide, by decide⟩

/-- C3 corrected: the grouper yields `np.max(labels) + 1` index groups —
one (possibly empty) group for every label value in
`[0, max(labels)]`, in increasing label order, a group containing
exactly the flat cell indices carrying that label.  This equals
`nbins_radial * nbins_azimuthal` only when the maximum label present is
`nbins_radial * nbins_azimuthal - 1`; labels above the maximum yield no
group at all. -/
theorem C3_grouper_amended (n0 n1 : ℕ) (as0 as1 inner outer : ℝ) (nr na : ℤ) :
    (label_to_index (polar_regions n0 n1 as0 as1 inner outer nr na)).length
      = (npMax (polar_regions n0 n1 as0 as1 inner outer nr na) + 1).toNat
    ∧ ∀ i : ℕ,
        i < (label_to_index (polar_regions n0 n1 as0 as1 inner outer nr na)).length →
        ∀ j : ℕ,
          (j ∈ (label_to_index (polar_regions n0 n1 as0 as1 inner outer nr na)).getD i []
            ↔ j < n0 * n1 ∧ labelFlat n0 n1 as0 as1 inner outer nr na j = (i : ℤ)) := by
  refine ⟨label_to_index_length _, ?_⟩
  intro i hi j
  rw [mem_label_to_index hi]
  constructor
  · rintro ⟨h1, h2⟩
    have h1' : j < n0 * n1 := by
      rwa [polar_regions_length] at h1
    refine ⟨h1', ?_⟩
    rwa [polar_regions_getD _ _ _ _ _ _ h1'] at h2
  · rintro ⟨h1, h2⟩
    refine ⟨by rwa [polar_regions_length], ?_⟩
    rwa [polar_regions_getD _ _ _ _ _ _ h1]

/-- Witness for C3's amended statement at the concrete input of the
counterexample (1×1 grid, `inner = 0`, `outer = 1`, `nr = 2`,
`na = 1`). -/
theorem C3_grouper_amended_witness :
    (label_to_index (polar_regions 1 1 1 1 0 1 2 1)).length
      = (npMax (polar_regions 1 1 1 1 0 1 2 1) + 1).toNat
    ∧ ∀ i : ℕ,
        i < (label_to_index (polar_regions 1 1 1 1 0 1 2 1)).length →
        ∀ j : ℕ,
          (j ∈ (label_to_index (polar_regions 1 1 1 1 0 1 2 1)).getD i []
            ↔ j < 1 * 1 ∧ labelFlat 1 1 1 1 0 1 2 1 j = (i : ℤ)) :=
  C3_grouper_amended 1 1 1 1 0 1 2 1

/-- C4 counterexample: with `inner = outer = 0` on a 1×1 grid
(`radial_steps = 1`, default azimuthal step `2π`), the zero-frequency
cell has `alpha = 0 ∈ [inner, outer]`, so its radial expression is
`0.0 / 0.0 = NaN` and the stored label is the undefined NaN→int cast
(INT64_MIN on x86-64) rather than `-1`.  `np.all(labels == -1)` is then
false, so the `Zero-sized detector region.` error is *not* raised;
instead `np.max(labels) + 1` is far below zero, `arange` is empty, and
`_get_regions` silently returns an empty region list — contradicting
the claim that `inner == outer` raises the zero-sized-region error. -/
theorem C4_counterexample :
    get_regions (some 0) (some 0) 1 (2 * Real.pi) 1 1 1 1 none
      = .ok ([] : List (List ℕ)) := by
  have hlab : labelFlat 1 1 ((1 : ℝ) / 1000) ((1 : ℝ) / 1000)
      ((0 : ℝ) / 1000) ((0 : ℝ) / 1000) ⌈((0 : ℝ) - 0) / 1⌉
      ⌈2 * Real.pi / (2 * Real.pi)⌉ 0 = -(2 ^ 63) := by
    unfold labelFlat
    simp only [alphaFlat_zero, Nat.zero_div, Nat.zero_mod, kalpha_zero,
      arctan2_zero_zero]
    rw [if_pos ⟨by norm_num, by norm_num⟩,
      angularBin_zero (by rw [ceil_two_pi_div_self]),
      radialBin, if_pos (by norm_num), ceil_two_pi_div_self]
    ring
  rw [get_regions_some_eq, polar_regions_one_one, hlab]
  rw [if_neg (by decide : ¬ (([-(2 ^ 63)] : List ℤ).all fun l => l = -1) = true)]
  rw [show label_to_index [-(2 ^ 63)] = [] by decide]

/-- C4 corrected: `_get_regions` (outer limit given) raises the
`Zero-sized detector region.` error exactly when every grid cell's
radial magnitude lies outside `[inner, outer]` — which covers an
annulus entirely outside the sampled frequency range, but *not*
`inner == outer` in general: when some cell's `alpha` equals the common
value (e.g. `inner = outer = 0` and the zero-frequency cell), that
cell's label is the undefined NaN→int cast (INT64_MIN junk, never
`-1`), so no error is raised and `_get_regions` instead silently
returns an empty region list (the counterexample). -/
theorem C4_zero_region_amended (inner outer radial_steps azimuthal_steps : ℝ)
    (n0 n1 : ℕ) (as0 as1 : ℝ) (cutoff? : Option ℝ)
    (hrs : 0 < radial_steps) (has : 0 < azimuthal_steps) :
    (get_regions (some inner) (some outer) radial_steps azimuthal_steps
        n0 n1 as0 as1 cutoff? = .error "Zero-sized detector region.")
      ↔ ∀ f < n0 * n1,
          ¬(inner / 1000 ≤ alphaFlat n0 n1 (as0 / 1000) (as1 / 1000) f
            ∧ alphaFlat n0 n1 (as0 / 1000) (as1 / 1000) f ≤ outer / 1000) := by
  have hna : 1 ≤ (⌈2 * Real.pi / azimuthal_steps⌉ : ℤ) := by
    have hpos : (0 : ℝ) < 2 * Real.pi / azimuthal_steps := by positivity
    have := Int.ceil_pos.mpr hpos
    omega
  have hbins : get_bins (some inner) (some outer) radial_steps azimuthal_steps
      cutoff? = .ok (⌈(outer - inner) / radial_steps⌉,
        ⌈2 * Real.pi / azimuthal_steps⌉, inner, outer) := rfl
  unfold get_regions
  rw [hbins]
  simp only [Except.bind]
  set labels := polar_regions n0 n1 (as0 / 1000) (as1 / 1000) (inner / 1000)
    (outer / 1000) ⌈(outer - inner) / radial_steps⌉
    ⌈2 * Real.pi / azimuthal_steps⌉ with hlabels
  have hne1 : ∀ f : ℕ,
      (inner / 1000 ≤ alphaFlat n0 n1 (as0 / 1000) (as1 / 1000) f
        ∧ alphaFlat n0 n1 (as0 / 1000) (as1 / 1000) f ≤ outer / 1000) →
      labelFlat n0 n1 (as0 / 1000) (as1 / 1000) (inner / 1000)
        (outer / 1000) ⌈(outer - inner) / radial_steps⌉
        ⌈2 * Real.pi / azimuthal_steps⌉ f ≠ -1 := by
    intro f hv
    have hio : inner ≤ outer := by
      have := le_trans hv.1 hv.2
      linarith
    rcases eq_or_lt_of_le hio with heq | hlt
    · -- degenerate annulus: the label is the junk value
      -- `angular_bin + INT64_MIN * na`, which is far below `-1`
      unfold labelFlat
      rw [if_pos hv, radialBin, if_pos (by rw [heq, sub_self])]
      have hb1 := angularBin_nonneg hna
        (arctan2 (kalpha n0 (as0 / 1000) (f / n1)) (kalpha n1 (as1 / 1000) (f % n1)))
      have hb2 := angularBin_le (⌈2 * Real.pi / azimuthal_steps⌉ : ℤ)
        (arctan2 (kalpha n0 (as0 / 1000) (f / n1)) (kalpha n1 (as1 / 1000) (f % n1)))
      omega
    · have hnr : 0 ≤ (⌈(outer - inner) / radial_steps⌉ : ℤ) :=
        Int.ceil_nonneg (div_nonneg (by linarith) hrs.le)
      have hio' : inner / 1000 < outer / 1000 := by linarith
      have := labelFlat_nonneg hnr hna hio' hv
      omega
  by_cases hall : (labels.all fun l => l = -1) = true
  · rw [if_pos hall]
    constructor
    · intro _ f hf hv
      have hx := List.all_eq_true.mp hall _
        (labelFlat_mem_polar_regions _ _ _ _ _ _ hf)
      have hx' : labelFlat n0 n1 (as0 / 1000) (as1 / 1000) (inner / 1000)
          (outer / 1000) ⌈(outer - inner) / radial_steps⌉
          ⌈2 * Real.pi / azimuthal_steps⌉ f = -1 := by
        simpa using hx
      exact hne1 f hv hx'
    · intro _
      rfl
  · rw [if_neg hall]
    constructor
    · intro herr
      exact Except.noConfusion herr
    · intro hinv
      exfalso
      apply hall
      rw [List.all_eq_true]
      intro x hx
      obtain ⟨f, hf, hfx⟩ := mem_polar_regions hx
      have : labelFlat n0 n1 (as0 / 1000) (as1 / 1000) (inner / 1000)
          (outer / 1000) ⌈(outer - inner) / radial_steps⌉
          ⌈2 * Real.pi / azimuthal_steps⌉ f = -1 := by
        unfold labelFlat
        rw [if_neg (hinv f hf)]
      rw [← hfx, this]
      decide

/-- Witness for C4's amended statement at the concrete input
`inner = 5`, `outer = 6`, unit steps, 1×1 grid. -/
theorem C4_zero_region_amended_witness :
    ((0 : ℝ) < 1 ∧ (0 : ℝ) < 1)
    ∧ ((get_regions (some 5) (some 6) 1 1 1 1 1 1 none
          = .error "Zero-sized detector region.")
      ↔ ∀ f < 1 * 1,
          ¬((5 : ℝ) / 1000 ≤ alphaFlat 1 1 (1 / 1000) (1 / 1000) f
            ∧ alphaFlat 1 1 (1 / 1000) (1 / 1000) f ≤ (6 : ℝ) / 1000)) :=
  ⟨⟨by norm_num, by norm_num⟩,
    C4_zero_region_amended 5 6 1 1 1 1 1 1 none (by norm_num) (by norm_num)⟩

lemma annular_detect_eval (d : AnnularDetector) {n0 n1 : ℕ} (w : Waves n0 n1)
    (fft2 : (ℕ → ℕ → ℂ) → ℕ → ℕ → ℂ) (regs : List (List ℕ))
    (hc : d.cache = none)
    (hr : get_regions (some d.inner) (some d.outer) d.radial_steps
        d.azimuthal_steps n0 n1 w.angular_sampling.1 w.angular_sampling.2
        (some (min w.cutoff_scattering_angles.1 w.cutoff_scattering_angles.2))
        = .ok regs) :
    (d.detect w fft2 true = .ok fun b =>
        ((regs.headD []).map fun f => abs2 (fft2 w.array b f)).sum
          / ((List.range (n0 * n1)).map fun f => abs2 (fft2 w.array b f)).sum)
    ∧ d.detect w fft2 false = .ok fun b =>
        ((regs.headD []).map fun f => abs2 (fft2 w.array b f)).sum := by
  unfold AnnularDetector.detect AnnularDetector.integrate_array
    AnnularDetector.regions
  rw [hc, hr]
  exact ⟨rfl, rfl⟩

lemma angularBin_one (θ : ℝ) : angularBin 1 θ = 0 := by
  rw [angularBin]
  norm_num

/-- C5 is a code bug, demonstrated here: `AnnularDetector(0, 10)` sets
`_radial_steps = 10`; the `outer` setter updates only `_outer` (and the
cache is invalidated), so after `detector.outer = 20` the next
`detect()` recomputes regions with `nbins_radial = ceil(20 / 10) = 2`
and integrates only radial bin 0 (`alpha ∈ [0, 10)` mrad), whereas a
freshly constructed `AnnularDetector(0, 20)` has `_radial_steps = 20`,
one radial bin, and integrates `alpha ∈ [0, 20)`.  On a 2×1 grid with
cells at `0` and `15` mrad and uniform intensity the mutated detector
returns `1/2` while the fresh one returns `1`. -/
theorem C5_stale_radial_steps :
    ∃ f g : ℕ → ℝ,
      AnnularDetector.detect
          (AnnularDetector.set_outer
            { AnnularDetector.make 0 10 with
                cache := some ((((2, 1) : ℕ × ℕ), ((15, 15) : ℝ × ℝ),
                  (some 100 : Option ℝ)), [[0]]) } 20)
          wavesTwo fftId true = .ok f
      ∧ AnnularDetector.detect (AnnularDetector.make 0 20) wavesTwo fftId true
          = .ok g
      ∧ f 0 = 1 / 2 ∧ g 0 = 1 ∧ f 0 ≠ g 0 := by
  have hI : ∀ b fi : ℕ, abs2 (fftId wavesTwo.array b fi) = 1 := by
    intro b fi
    simp [abs2, fftId, wavesTwo]
  have hlabM0 : labelFlat 2 1 ((15 : ℝ) / 1000) ((15 : ℝ) / 1000)
      ((0 : ℝ) / 1000) ((20 : ℝ) / 1000) 2 1 0 = 0 :=
    labelFlat_zero_cell 2 1 _ _ _ _ 2 1 (by norm_num) (by norm_num) le_rfl
      (by rw [radialBin]; norm_num)
  have hlabM1 : labelFlat 2 1 ((15 : ℝ) / 1000) ((15 : ℝ) / 1000)
      ((0 : ℝ) / 1000) ((20 : ℝ) / 1000) 2 1 1 = 1 := by
    rw [labelFlat_c5_cell1 _ _ _ 2 (by norm_num) (by norm_num), radialBin]
    norm_num
  have hlabF0 : labelFlat 2 1 ((15 : ℝ) / 1000) ((15 : ℝ) / 1000)
      ((0 : ℝ) / 1000) ((20 : ℝ) / 1000) 1 1 0 = 0 :=
    labelFlat_zero_cell 2 1 _ _ _ _ 1 1 (by norm_num) (by norm_num) le_rfl
      (by rw [radialBin]; norm_num)
  have hlabF1 : labelFlat 2 1 ((15 : ℝ) / 1000) ((15 : ℝ) / 1000)
      ((0 : ℝ) / 1000) ((20 : ℝ) / 1000) 1 1 1 = 0 := by
    rw [labelFlat_c5_cell1 _ _ _ 1 (by norm_num) (by norm_num), radialBin]
    norm_num
  have hbinsM : get_bins (some 0) (some 20) (10 - 0) (2 * Real.pi)
      (some (min (100 : ℝ) 100)) = .ok (2, 1, 0, 20) := by
    show Except.ok ((⌈((20 : ℝ) - 0) / (10 - 0)⌉ : ℤ),
      (⌈2 * Real.pi / (2 * Real.pi)⌉ : ℤ), (0 : ℝ), (20 : ℝ)) = _
    rw [ceil_two_pi_div_self]
    norm_num
  have hbinsF : get_bins (some 0) (some 20) (20 - 0) (2 * Real.pi)
      (some (min (100 : ℝ) 100)) = .ok (1, 1, 0, 20) := by
    show Except.ok ((⌈((20 : ℝ) - 0) / (20 - 0)⌉ : ℤ),
      (⌈2 * Real.pi / (2 * Real.pi)⌉ : ℤ), (0 : ℝ), (20 : ℝ)) = _
    rw [ceil_two_pi_div_self]
    norm_num
  have hregM : get_regions (some 0) (some 20) (10 - 0) (2 * Real.pi) 2 1 15 15
      (some (min (100 : ℝ) 100)) = .ok [[0], [1]] := by
    unfold get_regions
    rw [hbinsM]
    simp only [Except.bind]
    rw [polar_regions_two_one, hlabM0, hlabM1]
    rw [if_neg (by decide : ¬ (([0, 1] : List ℤ).all fun l => l = -1) = true)]
    rw [show label_to_index [0, 1] = [[0], [1]] by decide]
  have hregF : get_regions (some 0) (some 20) (20 - 0) (2 * Real.pi) 2 1 15 15
      (some (min (100 : ℝ) 100)) = .ok [[0, 1]] := by
    unfold get_regions
    rw [hbinsF]
    simp only [Except.bind]
    rw [polar_regions_two_one, hlabF0, hlabF1]
    rw [if_neg (by decide : ¬ (([0, 0] : List ℤ).all fun l => l = -1) = true)]
    rw [show label_to_index [0, 0] = [[0, 1]] by decide]
  obtain ⟨hM, -⟩ := annular_detect_eval
    (AnnularDetector.set_outer
      { AnnularDetector.make 0 10 with
          cache := some ((((2, 1) : ℕ × ℕ), ((15, 15) : ℝ × ℝ),
            (some 100 : Option ℝ)), [[0]]) } 20)
    wavesTwo fftId [[0], [1]] rfl hregM
  obtain ⟨hF, -⟩ := annular_detect_eval (AnnularDetector.make 0 20)
    wavesTwo fftId [[0, 1]] rfl hregF
  refine ⟨_, _, hM, hF, ?_, ?_, ?_⟩
  · simp only [hI]
    norm_num [List.range_succ]
  · simp only [hI]
    norm_num [List.range_succ]
  · simp only [hI]
    norm_num [List.range_succ]

/-- C6: `AnnularDetector.detect` with `normalize=True` returns, per
batch element, the sum of the FFT squared-magnitude intensity over the
detector's single (first) region divided by the total intensity over
the whole grid; with `normalize=False` the raw region sum is returned;
and when the annulus covers every grid cell (`inner ≤ alpha < outer`
everywhere, in particular `inner = 0` with `outer` beyond the sampled
range) a uniform-intensity input detects exactly `1.0` for every batch
element. -/
theorem C6_annular_detect (inner outer : ℝ) {n0 n1 : ℕ} (w : Waves n0 n1)
    (fft2 : (ℕ → ℕ → ℂ) → ℕ → ℕ → ℂ) (regs : List (List ℕ))
    (hr : get_regions (some inner) (some outer) (outer - inner)
        (2 * Real.pi) n0 n1 w.angular_sampling.1 w.angular_sampling.2
        (some (min w.cutoff_scattering_angles.1 w.cutoff_scattering_angles.2))
        = .ok regs) :
    ((AnnularDetector.make inner outer).detect w fft2 true = .ok fun b =>
        ((regs.headD []).map fun f => abs2 (fft2 w.array b f)).sum
          / ((List.range (n0 * n1)).map fun f => abs2 (fft2 w.array b f)).sum)
    ∧ ((AnnularDetector.make inner outer).detect w fft2 false = .ok fun b =>
        ((regs.headD []).map fun f => abs2 (fft2 w.array b f)).sum)
    ∧ (inner < outer →
        (∀ f < n0 * n1,
          inner / 1000 ≤ alphaFlat n0 n1 (w.angular_sampling.1 / 1000)
              (w.angular_sampling.2 / 1000) f
            ∧ alphaFlat n0 n1 (w.angular_sampling.1 / 1000)
                (w.angular_sampling.2 / 1000) f < outer / 1000) →
        0 < n0 * n1 →
        ∀ c : ℝ, 0 < c →
        (∀ b f : ℕ, f < n0 * n1 → abs2 (fft2 w.array b f) = c) →
        (AnnularDetector.make inner outer).detect w fft2 true
          = .ok fun _ => 1) := by
  obtain ⟨h1, h2⟩ := annular_detect_eval (AnnularDetector.make inner outer)
    w fft2 regs rfl hr
  refine ⟨h1, h2, ?_⟩
  intro hio hcover hN c hc huni
  -- the computed bin counts are 1 and 1
  have hnr : (⌈(outer - inner) / (outer - inner)⌉ : ℤ) = 1 := by
    rw [div_self (sub_ne_zero.mpr hio.ne')]
    norm_num
  -- every cell gets label 0
  have hosub : (0 : ℝ) < outer / 1000 - inner / 1000 := by linarith
  have hlab : ∀ f < n0 * n1,
      labelFlat n0 n1 (w.angular_sampling.1 / 1000)
        (w.angular_sampling.2 / 1000) (inner / 1000) (outer / 1000) 1 1 f
        = 0 := by
    intro f hf
    obtain ⟨hv1, hv2⟩ := hcover f hf
    unfold labelFlat
    rw [if_pos ⟨hv1, hv2.le⟩, angularBin_one, radialBin, if_neg hosub.ne']
    have hfl : ⌊((1 : ℤ) : ℝ) * (alphaFlat n0 n1 (w.angular_sampling.1 / 1000)
        (w.angular_sampling.2 / 1000) f - inner / 1000)
          / (outer / 1000 - inner / 1000)⌋ = 0 := by
      rw [Int.floor_eq_zero_iff]
      constructor
      · push_cast
        rw [one_mul]
        exact div_nonneg (by linarith) hosub.le
      · push_cast
        rw [one_mul, div_lt_one hosub]
        linarith
    rw [hfl]
    norm_num
  -- hence the computed label array is constant 0
  set labels := polar_regions n0 n1 (w.angular_sampling.1 / 1000)
    (w.angular_sampling.2 / 1000) (inner / 1000) (outer / 1000) 1 1 with hldef
  have hmem0 : ∀ x ∈ labels, x = 0 := by
    intro x hx
    obtain ⟨f, hf, hfx⟩ := mem_polar_regions hx
    rw [← hfx]
    exact hlab f hf
  have hne : labels ≠ [] := by
    apply List.ne_nil_of_length_pos
    rw [hldef, polar_regions_length]
    exact hN
  have h0mem : (0 : ℤ) ∈ labels := by
    have hmm := @labelFlat_mem_polar_regions n0 n1
      (w.angular_sampling.1 / 1000) (w.angular_sampling.2 / 1000)
      (inner / 1000) (outer / 1000) 1 1 0 hN
    rwa [hlab 0 hN] at hmm
  have hmax : npMax labels = 0 :=
    le_antisymm (npMax_le hne fun x hx => (hmem0 x hx).le) (le_npMax h0mem)
  have hall : ¬ ((labels.all fun l => l = -1) = true) := by
    intro hcontra
    have := List.all_eq_true.mp hcontra 0 h0mem
    simp at this
  have hgroups : label_to_index labels = [List.range (n0 * n1)] := by
    have hlen' : labels.length = n0 * n1 := by
      rw [hldef, polar_regions_length]
    rw [label_to_index, hmax, hlen']
    norm_num [List.range_succ]
    intro j hjN
    rw [← List.getD_eq_getElem?_getD, hldef,
      polar_regions_getD _ _ _ _ _ _ hjN]
    exact hlab j hjN
  have hcomp : get_regions (some inner) (some outer) (outer - inner)
      (2 * Real.pi) n0 n1 w.angular_sampling.1 w.angular_sampling.2
      (some (min w.cutoff_scattering_angles.1 w.cutoff_scattering_angles.2))
      = .ok [List.range (n0 * n1)] := by
    rw [get_regions_some_eq, hnr, ceil_two_pi_div_self, ← hldef,
      if_neg hall, hgroups]
  have hregs : regs = [List.range (n0 * n1)] := by
    rw [hcomp] at hr
    exact (Except.ok.inj hr).symm
  rw [hregs] at h1
  rw [h1]
  congr 1
  funext b
  show ((([(List.range (n0 * n1))].headD []).map
      fun f => abs2 (fft2 w.array b f)).sum)
    / (((List.range (n0 * n1)).map fun f => abs2 (fft2 w.array b f)).sum) = 1
  have hsum : ((List.range (n0 * n1)).map
      fun f => abs2 (fft2 w.array b f)).sum = (n0 * n1 : ℕ) * c := by
    rw [List.map_congr_left fun f hf => huni b f (List.mem_range.mp hf),
      List.map_const', List.sum_replicate, List.length_range, nsmul_eq_mul]
  rw [show ([(List.range (n0 * n1))].headD []) = List.range (n0 * n1) from rfl]
  rw [hsum]
  exact div_self (ne_of_gt (mul_pos (by exact_mod_cast hN) hc))

/-- Witness for C6 at the concrete input: `AnnularDetector(0, 1)` on the
1×1-grid unit-intensity wave batch (whose single region is the whole
grid). -/
theorem C6_annular_detect_witness :
    (get_regions (some 0) (some 1) (1 - 0) (2 * Real.pi) 1 1 1 1
        (some (min 1 1)) = .ok [[0]])
    ∧ (((AnnularDetector.make 0 1).detect wavesUnit fftId true = .ok fun b =>
          (([[0]] : List (List ℕ)).headD [] |>.map
              fun f => abs2 (fftId wavesUnit.array b f)).sum
            / ((List.range (1 * 1)).map
              fun f => abs2 (fftId wavesUnit.array b f)).sum)
      ∧ ((AnnularDetector.make 0 1).detect wavesUnit fftId false = .ok fun b =>
          (([[0]] : List (List ℕ)).headD [] |>.map
              fun f => abs2 (fftId wavesUnit.array b f)).sum)
      ∧ ((0 : ℝ) < 1 →
          (∀ f < 1 * 1,
            (0 : ℝ) / 1000 ≤ alphaFlat 1 1 (1 / 1000) (1 / 1000) f
              ∧ alphaFlat 1 1 (1 / 1000) (1 / 1000) f < (1 : ℝ) / 1000) →
          0 < 1 * 1 →
          ∀ c : ℝ, 0 < c →
          (∀ b f : ℕ, f < 1 * 1 → abs2 (fftId wavesUnit.array b f) = c) →
          (AnnularDetector.make 0 1).detect wavesUnit fftId true
            = .ok fun _ => 1)) := by
  have hr : get_regions (some 0) (some 1) (1 - 0) (2 * Real.pi) 1 1 1 1
      (some (min 1 1)) = .ok [[0]] := by
    apply get_regions_unit
    · exact le_rfl
    · exact zero_le_one
    · rw [ceil_two_pi_div_self]
    · rw [radialBin]
      norm_num
  exact ⟨hr, C6_annular_detect 0 1 wavesUnit fftId [[0]] hr⟩

lemma separators_length (ms : List ℕ) : (separators ms).length = ms.length + 1 := by
  induction ms with
  | nil => rfl
  | cons m ms ih => simp [separators, ih]

lemma separators_zero (ms : List ℕ) : (separators ms).getD 0 0 = 0 := by
  cases ms <;> rfl

lemma getD_map_add {S : List ℕ} (k : ℕ) {g : ℕ} (hg : g < S.length) :
    (S.map (k + ·)).getD g 0 = k + S.getD g 0 := by
  rw [List.getD_eq_getElem _ _ (by simpa using hg), List.getElem_map,
    List.getD_eq_getElem _ _ hg]

/-- The run-length reduction of a region-contiguous gather recovers the
per-region sums: this is the composition `detect` builds from
`concatenate(indices)`, `cumsum` separators and
`sum_run_length_encoded`. -/
lemma sum_run_length_flatten (rows : List (List ℝ)) :
    sum_run_length rows.flatten (separators (rows.map List.length))
      = rows.map List.sum := by
  induction rows with
  | nil => rfl
  | cons r rows ih =>
    have hSlen : (separators (rows.map List.length)).length
        = rows.length + 1 := by
      rw [separators_length, List.length_map]
    show sum_run_length (r ++ rows.flatten)
        (0 :: (separators (rows.map List.length)).map (r.length + ·))
      = r.sum :: rows.map List.sum
    rw [sum_run_length]
    have hlen2 : (0 :: (separators (rows.map List.length)).map
        (r.length + ·)).length - 1 = rows.length + 1 := by
      simp [hSlen]
    rw [hlen2, List.range_succ_eq_map, List.map_cons, List.map_map]
    congr 1
    · -- the first run is exactly `r`
      show ((r ++ rows.flatten).drop
          ((0 :: (separators (rows.map List.length)).map (r.length + ·)).getD 0 0)
        |>.take ((0 :: (separators (rows.map List.length)).map
              (r.length + ·)).getD (0 + 1) 0
            - (0 :: (separators (rows.map List.length)).map
              (r.length + ·)).getD 0 0)).sum = r.sum
      rw [List.getD_cons_zero, List.getD_cons_succ,
        getD_map_add r.length (by omega), separators_zero]
      simp only [Nat.add_zero, Nat.sub_zero, List.drop_zero]
      rw [List.take_left]
    · -- the remaining runs are the runs of the tail
      rw [← ih, sum_run_length]
      have hlen3 : (separators (rows.map List.length)).length - 1
          = rows.length := by
        rw [hSlen]
        omega
      rw [hlen3]
      apply List.map_congr_left
      intro g hg
      have hgn : g < rows.length := List.mem_range.mp hg
      simp only [Function.comp]
      rw [List.getD_cons_succ, List.getD_cons_succ,
        getD_map_add r.length (by omega), getD_map_add r.length (by omega),
        Nat.add_sub_add_left, List.drop_append]

/-- C7 corrected: `SegmentedDetector.detect` returns a 3D array of
shape `(batch, nbins_radial, nbins_angular)` whose `(r, a)` entry is
the normalized aggregated intensity of the region with label
`a + r * nbins_angular`, *provided* the number of region index groups
equals `nbins_radial * nbins_angular` (i.e. the maximum label present
is `nbins_radial * nbins_angular - 1`); otherwise the trailing numpy
reshape mis-shapes or fails (see the counterexample). -/
theorem C7_segmented_amended (d : SegmentedDetector) {n0 n1 : ℕ}
    (w : Waves n0 n1) (fft2 : (ℕ → ℕ → ℂ) → ℕ → ℕ → ℂ)
    (regs : List (List ℕ)) (nr na : ℕ)
    (hr : get_regions (some d.inner) (some d.outer) d.radial_steps
        d.azimuthal_steps n0 n1 w.angular_sampling.1 w.angular_sampling.2
        (some (min w.cutoff_scattering_angles.1 w.cutoff_scattering_angles.2))
        = .ok regs)
    (hnr : d.nbins_radial.toNat = nr) (hna : d.nbins_angular.toNat = na)
    (hG : regs.length = nr * na) (hpos : 0 < nr * na) :
    ∃ ent : ℕ → ℕ → ℕ → ℝ,
      d.detect w fft2 = .ok (w.nbatch, ent)
      ∧ ∀ b < w.nbatch, ∀ r < nr, ∀ a < na,
          ent b r a
            = ((regs.getD (a + r * na) []).map
                fun f => abs2 (fft2 w.array b f)).sum
              / ((List.range (n0 * n1)).map
                fun f => abs2 (fft2 w.array b f)).sum := by
  have hmod : w.nbatch * (nr * na) % (nr * na) = 0 := Nat.mul_mod_left _ _
  have hdiv : w.nbatch * (nr * na) / (nr * na) = w.nbatch :=
    Nat.mul_div_cancel _ hpos
  have hdet : d.detect w fft2 = .ok (w.nbatch, fun c r a =>
      (sum_run_length ((regs.flatten).map fun f => abs2 (fft2 w.array
            (((if w.nbatch = 1 then 0 else c) * (nr * na) + r * na + a)
              / (nr * na)) f))
          (separators (regs.map List.length))).getD
        (((if w.nbatch = 1 then 0 else c) * (nr * na) + r * na + a)
          % (nr * na)) 0
        / ((List.range (n0 * n1)).map fun f =>
            abs2 (fft2 w.array (if w.nbatch = 1 then 0 else c) f)).sum) := by
    unfold SegmentedDetector.detect
    rw [hr]
    simp only [Except.bind, hnr, hna, hG, hmod, hdiv, max_self]
    rw [if_neg (by omega : ¬ ((0 : ℕ) ≠ 0)),
      if_neg (by simp : ¬ (w.nbatch ≠ w.nbatch ∧ w.nbatch ≠ 1 ∧ w.nbatch ≠ 1))]
  refine ⟨_, hdet, ?_⟩
  intro b hb r hrlt a halt
  have hs : r * na + a < nr * na := by
    have h1 : r * na + a < (r + 1) * na := by
      rw [add_mul, one_mul]
      omega
    have h2 : (r + 1) * na ≤ nr * na := Nat.mul_le_mul_right na hrlt
    omega
  have hcx : (if w.nbatch = 1 then 0 else b) = b := by
    split
    · omega
    · rfl
  have hflatdiv : (b * (nr * na) + r * na + a) / (nr * na) = b := by
    rw [add_assoc, mul_comm b, Nat.mul_add_div hpos, Nat.div_eq_of_lt hs,
      add_zero]
  have hflatmod : (b * (nr * na) + r * na + a) % (nr * na) = r * na + a := by
    rw [add_assoc, mul_comm b, Nat.mul_add_mod, Nat.mod_eq_of_lt hs]
  have hresult :
      sum_run_length ((regs.flatten).map fun f => abs2 (fft2 w.array b f))
          (separators (regs.map List.length))
        = regs.map fun gl => (gl.map fun f => abs2 (fft2 w.array b f)).sum := by
    rw [List.map_flatten]
    have hlenmap : (regs.map (List.map fun f => abs2 (fft2 w.array b f))).map
        List.length = regs.map List.length := by
      rw [List.map_map]
      apply List.map_congr_left
      intro gl _
      simp
    rw [← hlenmap, sum_run_length_flatten, List.map_map]
    simp [Function.comp]
  have hslen : r * na + a < regs.length := by omega
  show (sum_run_length ((regs.flatten).map fun f => abs2 (fft2 w.array
        (((if w.nbatch = 1 then 0 else b) * (nr * na) + r * na + a)
          / (nr * na)) f))
      (separators (regs.map List.length))).getD
    (((if w.nbatch = 1 then 0 else b) * (nr * na) + r * na + a)
      % (nr * na)) 0
    / ((List.range (n0 * n1)).map fun f =>
        abs2 (fft2 w.array (if w.nbatch = 1 then 0 else b) f)).sum = _
  rw [hcx, hflatdiv, hflatmod, hresult]
  rw [List.getD_eq_getElem _ _ (by rw [List.length_map]; exact hslen),
    List.getElem_map, ← List.getD_eq_getElem _ _ hslen,
    Nat.add_comm a (r * na)]

/-- C7 counterexample: `SegmentedDetector(0, 1, nbins_radial=2,
nbins_angular=2)` on a 1×1 grid produces a single region group (the
only cell has label `0`), so the `(batch, num_groups) = (1, 1)` result
cannot be reshaped to `(-1, 2, 2)` — numpy raises a reshape error
instead of returning the claimed `(batch, 2, 2)` array. -/
theorem C7_counterexample :
    (SegmentedDetector.make 0 1 2 2).detect wavesUnit fftId
      = .error "cannot reshape array" := by
  have h2pi : (2 * Real.pi) ≠ 0 := by positivity
  have hx : 2 * Real.pi / (2 * Real.pi / ((2 : ℕ) : ℝ)) = 2 := by
    rw [div_div_eq_mul_div, mul_comm (2 * Real.pi) (((2 : ℕ) : ℝ)),
      mul_div_assoc, div_self h2pi, mul_one]
    norm_num
  have hreg : get_regions (some 0) (some 1) ((1 - 0) / ((2 : ℕ) : ℝ))
      (2 * Real.pi / ((2 : ℕ) : ℝ)) 1 1 1 1 (some (min 1 1))
      = .ok [[0]] := by
    apply get_regions_unit
    · exact le_rfl
    · exact zero_le_one
    · rw [hx]
      norm_num
    · rw [radialBin]
      norm_num
  have hpyr : pyint ((1 - 0) / ((1 - 0) / ((2 : ℕ) : ℝ))) = 2 := by
    rw [pyint]
    norm_num
  have hpya : pyint (2 * Real.pi / (2 * Real.pi / ((2 : ℕ) : ℝ))) = 2 := by
    rw [hx, pyint]
    norm_num
  unfold SegmentedDetector.detect
  simp only [SegmentedDetector.make, SegmentedDetector.nbins_radial,
    SegmentedDetector.nbins_angular, wavesUnit]
  rw [hreg]
  simp only [Except.bind, hpyr, hpya, show Int.toNat 2 = 2 from rfl]
  rw [if_pos]
  norm_num

/-- Witness for C7's amended statement: a segmented detector with one
radial and one angular bin on the 1×1 grid, where the single group
count equals `nbins_radial * nbins_angular = 1`. -/
theorem C7_segmented_amended_witness :
    (get_regions (some (0 : ℝ)) (some 1) 1 (2 * Real.pi) 1 1 1 1
        (some (min 1 1)) = .ok [[0]])
    ∧ ((⟨0, 1, 1, 2 * Real.pi⟩ : SegmentedDetector).nbins_radial.toNat = 1)
    ∧ ((⟨0, 1, 1, 2 * Real.pi⟩ : SegmentedDetector).nbins_angular.toNat = 1)
    ∧ (([[0]] : List (List ℕ)).length = 1 * 1)
    ∧ (0 < 1 * 1)
    ∧ (∃ ent : ℕ → ℕ → ℕ → ℝ,
        (⟨0, 1, 1, 2 * Real.pi⟩ : SegmentedDetector).detect wavesUnit fftId
          = .ok (wavesUnit.nbatch, ent)
        ∧ ∀ b < wavesUnit.nbatch, ∀ r < 1, ∀ a < 1,
            ent b r a
              = ((([[0]] : List (List ℕ)).getD (a + r * 1) []).map
                  fun f => abs2 (fftId wavesUnit.array b f)).sum
                / ((List.range (1 * 1)).map
                  fun f => abs2 (fftId wavesUnit.array b f)).sum) := by
  have hr : get_regions (some (0 : ℝ)) (some 1) 1 (2 * Real.pi) 1 1 1 1
      (some (min 1 1)) = .ok [[0]] := by
    apply get_regions_unit
    · exact le_rfl
    · exact zero_le_one
    · rw [ceil_two_pi_div_self]
    · rw [radialBin]
      norm_num
  have hnr : ((⟨0, 1, 1, 2 * Real.pi⟩ : SegmentedDetector).nbins_radial).toNat
      = 1 := by
    rw [SegmentedDetector.nbins_radial]
    norm_num [pyint]
  have hna : ((⟨0, 1, 1, 2 * Real.pi⟩ : SegmentedDetector).nbins_angular).toNat
      = 1 := by
    rw [SegmentedDetector.nbins_angular]
    rw [show (⟨0, 1, 1, 2 * Real.pi⟩ : SegmentedDetector).azimuthal_steps
      = 2 * Real.pi from rfl]
    rw [div_self (by positivity : (2 * Real.pi) ≠ 0)]
    norm_num [pyint]
  exact ⟨hr, hnr, hna, rfl, by norm_num,
    C7_segmented_amended ⟨0, 1, 1, 2 * Real.pi⟩ wavesUnit fftId [[0]] 1 1
      hr hnr hna rfl (by norm_num)⟩

/-- C8: for waves with a defined grid and a numeric `max_angle`, if the
`max_angle` exceeds the minimum per-axis cutoff scattering angle then
`PixelatedDetector.allocate_measurement` raises the configuration error
`Detector max angle exceeds the cutoff scattering angle.` immediately
and deterministically. -/
theorem C8_max_angle_error {n0 n1 : ℕ} (w : Waves n0 n1) (x : ℝ)
    (hg : w.grid_defined = true)
    (hx : min w.cutoff_scattering_angles.1 w.cutoff_scattering_angles.2 < x) :
    pixelated_allocate_measurement w (.num x)
      = .error "Detector max angle exceeds the cutoff scattering angle." := by
  rw [pixelated_allocate_measurement, if_neg (by rw [hg]; exact fun h => h rfl),
    check_max_angle_exceeded, if_pos hx]

/-- Witness for C8: `wavesUnit` (cutoffs `(1, 1)`, grid defined) with
`max_angle = 2`. -/
theorem C8_max_angle_error_witness :
    (wavesUnit.grid_defined = true
      ∧ min wavesUnit.cutoff_scattering_angles.1
          wavesUnit.cutoff_scattering_angles.2 < 2)
    ∧ pixelated_allocate_measurement wavesUnit (.num 2)
        = .error "Detector max angle exceeds the cutoff scattering angle." :=
  ⟨⟨rfl, by norm_num [wavesUnit]⟩,
    C8_max_angle_error wavesUnit 2 rfl (by norm_num [wavesUnit])⟩

/-- C9: when the outer limit is unset and a cutoff scattering angle is
available, `_get_bins` uses as effective outer angle not the cutoff
itself but the cutoff rounded down to the nearest integer multiple of
`radial_steps` (`outer = floor(cutoff / radial_steps) * radial_steps`,
a multiple of `radial_steps` within `(cutoff - radial_steps, cutoff]`),
and `nbins_radial = ceil((outer - inner) / radial_steps)`. -/
theorem C9_outer_rounding (inner? : Option ℝ)
    (radial_steps azimuthal_steps c : ℝ) (hrs : 0 < radial_steps) :
    ∃ (nr na : ℤ) (i o : ℝ),
      get_bins inner? none radial_steps azimuthal_steps (some c)
          = .ok (nr, na, i, o)
        ∧ o = ⌊c / radial_steps⌋ * radial_steps
        ∧ nr = ⌈(o - i) / radial_steps⌉
        ∧ i = inner?.getD 0
        ∧ (∃ k : ℤ, o = (k : ℝ) * radial_steps)
        ∧ o ≤ c ∧ c - radial_steps < o := by
  refine ⟨⌈(⌊c / radial_steps⌋ * radial_steps - inner?.getD 0) / radial_steps⌉,
    ⌈2 * Real.pi / azimuthal_steps⌉, inner?.getD 0,
    ⌊c / radial_steps⌋ * radial_steps, ?_, rfl, rfl, rfl,
    ⟨⌊c / radial_steps⌋, rfl⟩, ?_, ?_⟩
  · cases inner? <;> rfl
  · calc (⌊c / radial_steps⌋ : ℝ) * radial_steps
        ≤ c / radial_steps * radial_steps :=
          mul_le_mul_of_nonneg_right (Int.floor_le _) hrs.le
      _ = c := div_mul_cancel₀ c hrs.ne'
  · have h1 : c / radial_steps - 1 < ⌊c / radial_steps⌋ :=
      Int.sub_one_lt_floor _
    have h2 : (c / radial_steps - 1) * radial_steps
        < (⌊c / radial_steps⌋ : ℝ) * radial_steps :=
      mul_lt_mul_of_pos_right h1 hrs
    calc c - radial_steps = (c / radial_steps - 1) * radial_steps := by
          field_simp
      _ < (⌊c / radial_steps⌋ : ℝ) * radial_steps := h2

/-- Witness for C9 at `inner = 0`, `radial_steps = 1`,
`azimuthal_steps = 1`, `cutoff = 3`. -/
theorem C9_outer_rounding_witness :
    ((0 : ℝ) < 1)
    ∧ (∃ (nr na : ℤ) (i o : ℝ),
        get_bins (some 0) none 1 1 (some 3) = .ok (nr, na, i, o)
        ∧ o = ⌊(3 : ℝ) / 1⌋ * 1
        ∧ nr = ⌈(o - i) / 1⌉
        ∧ i = (some (0 : ℝ)).getD 0
        ∧ (∃ k : ℤ, o = (k : ℝ) * 1)
        ∧ o ≤ 3 ∧ (3 : ℝ) - 1 < o) :=
  ⟨by norm_num, C9_outer_rounding (some 0) 1 1 3 (by norm_num)⟩

/-- C10: a string-valued `max_angle` (such as the default `'valid'`)
makes `check_max_angle_exceeded` return without performing any
comparison, so `PixelatedDetector.allocate_measurement` never raises
the max-angle-exceeded error for a string `max_angle`, regardless of
the waves' cutoff scattering angles. -/
theorem C10_string_max_angle {n0 n1 : ℕ} (w : Waves n0 n1) (s : String) :
    check_max_angle_exceeded w.cutoff_scattering_angles (.str s) = .ok ()
    ∧ pixelated_allocate_measurement w (.str s)
        ≠ .error "Detector max angle exceeds the cutoff scattering angle." := by
  refine ⟨rfl, ?_⟩
  rw [pixelated_allocate_measurement]
  by_cases hg : w.grid_defined
  · rw [if_neg (by rw [hg]; exact fun h => h rfl)]
    intro h
    exact Except.noConfusion h
  · rw [if_pos (by simpa using hg)]
    intro h
    have := Except.error.inj h
    exact absurd this (by decide)

end Abtem
